import Mathlib

/-!
Verification development for a backtesting engine for equity and options
trading strategies.

The embedding below translates the Python sources into Lean:

* `black_scholes.py` — the Black–Scholes call/put formulas, embedded twice:
  once over exact real arithmetic (`black_scholes_call`, `black_scholes_put`)
  and once in a partiality-tracking form (`black_scholes_call_num`,
  `black_scholes_put_num`) where `none` stands for a numerical error
  (logarithm of a non-positive number, square root of a negative number,
  or a division by zero), mirroring the NaN/divide-by-zero behaviour of the
  floating-point code.
* `trading_actions.py` — the `TradingAction` executor.  Money amounts,
  prices and share counts are embedded as rationals (Python floats are
  numbers here; all comparisons are order comparisons), dates as integers
  (only their ordering and day differences matter), tickers as strings.
  The class-level transaction log (`_transaction_log`, possibly `None`,
  and `_current_date`) is embedded as an explicit `TAContext` value that
  each operation takes and returns.  `simulation.py` contains a duplicate
  `TradingAction` class whose `buy_stock`, `sell_stock`, `sell_call` and
  `sell_put` are line-for-line identical to the ones in
  `trading_actions.py`; the definitions below therefore serve for both.
* `simulation.py` — the engine-side `Portfolio` (valuation in namespace
  `SimPortfolio`), the expiration handler `handle_option_expirations`,
  the end-of-day valuation snapshot, and the summary statistics of
  `print_performance_stats`.
* `portfolio.py` — the other `Portfolio` valuation (namespace
  `UtilPortfolio`).
-/

/-- Embeds `option_type` field: the Python strings `'call'` / `'put'`. -/
inductive OptType where
  | call
  | put
  deriving DecidableEq

/-- Embeds `position` field of a contract: the Python strings `'long'` / `'short'`. -/
inductive Side where
  | long
  | short
  deriving DecidableEq

/-- Embeds `Position` dataclass (identical in `portfolio.py` and `simulation.py`). -/
structure Position where
  ticker : String
  shares : ℚ
  avg_cost : ℚ
  deriving DecidableEq

/-- Embeds `OptionContract` dataclass (identical in `portfolio.py` and
`simulation.py`). -/
structure OptionContract where
  ticker : String
  strike : ℚ
  expiration_date : Int
  option_type : OptType
  contracts : ℤ
  premium_received : ℚ
  position : Side
  deriving DecidableEq

/-- Embeds `Portfolio` dataclass: cash, `positions : Dict[str, Position]`
(embedded as a list of `Position`s looked up by ticker, insertion order),
`options : List[OptionContract]`. -/
structure Portfolio where
  cash : ℚ
  positions : List Position
  options : List OptionContract
  deriving DecidableEq

/-- Embeds `ticker in portfolio.positions` / `portfolio.positions[ticker]`. -/
def Portfolio.findPos (p : Portfolio) (ticker : String) : Option Position :=
  p.positions.find? (fun q => q.ticker == ticker)

/-- Transaction records: the dict literals appended to the transaction log,
one constructor per `'action'` kind, carrying the same fields. -/
inductive Txn where
  | buyStock (date : Int) (ticker : String) (shares price total : ℚ)
  | sellStock (date : Int) (ticker : String) (shares price total : ℚ)
  | buyCall (date : Int) (ticker : String) (contracts : ℤ)
      (strike premium_per_share total_premium : ℚ) (expiration : Int)
  | sellCall (date : Int) (ticker : String) (contracts : ℤ)
      (strike premium_per_share total_premium : ℚ) (expiration : Int)
  | sellPut (date : Int) (ticker : String) (contracts : ℤ)
      (strike premium_per_share total_premium : ℚ) (expiration : Int)
  | buyPut (date : Int) (ticker : String) (contracts : ℤ)
      (strike premium_per_share total_premium : ℚ) (expiration : Int)
  | closeCall (date : Int) (ticker : String) (contracts : ℤ)
      (strike premium_per_share total_premium : ℚ) (expiration : Int)
  | closePut (date : Int) (ticker : String) (contracts : ℤ)
      (strike premium_per_share total_premium : ℚ) (expiration : Int)
  | callExercised (date : Int) (ticker : String) (contracts : ℤ)
      (strike current_price shares_sold : ℚ)
  | putExercised (date : Int) (ticker : String) (contracts : ℤ)
      (strike current_price shares_bought : ℚ)
  deriving DecidableEq

/-- The class-level state of `TradingAction`: `_transaction_log` (a list, or
`None` when never set) and `_current_date`, as set by `set_transaction_log`. -/
structure TAContext where
  txlog : Option (List Txn)
  current_date : Int
  deriving DecidableEq

/-- Embeds `if TradingAction._transaction_log is not None: _transaction_log.append(t)`. -/
def TAContext.append (ctx : TAContext) (t : Txn) : TAContext :=
  { ctx with txlog := ctx.txlog.map (fun l => l ++ [t]) }

/-- Result of one executor operation: the returned boolean, the portfolio
after the call, and the (possibly extended) transaction-log state. -/
structure ActionResult where
  ok : Bool
  portfolio : Portfolio
  ctx : TAContext
  deriving DecidableEq

namespace TradingAction

/-- Embeds `TradingAction.buy_stock` (`trading_actions.py` lines 15–40; the copy in
`simulation.py` lines 84–110 is identical). -/
def buy_stock (ctx : TAContext) (p : Portfolio) (ticker : String)
    (shares price : ℚ) : ActionResult :=
  let cost := shares * price
  if cost > p.cash then ⟨false, p, ctx⟩
  else
    let positions :=
      if (p.findPos ticker).isSome then
        p.positions.map (fun pos =>
          if pos.ticker == ticker then
            { pos with
              avg_cost := (pos.avg_cost * pos.shares + cost) / (pos.shares + shares),
              shares := pos.shares + shares }
          else pos)
      else p.positions ++ [⟨ticker, shares, price⟩]
    ⟨true, ⟨p.cash - cost, positions, p.options⟩,
      ctx.append (Txn.buyStock ctx.current_date ticker shares price cost)⟩

/-- Embeds `TradingAction.sell_stock` (`trading_actions.py` lines 42–64; the copy in
`simulation.py` lines 112–135 is identical). -/
def sell_stock (ctx : TAContext) (p : Portfolio) (ticker : String)
    (shares price : ℚ) : ActionResult :=
  match p.findPos ticker with
  | none => ⟨false, p, ctx⟩
  | some pos =>
    if pos.shares < shares then ⟨false, p, ctx⟩
    else
      let proceeds := shares * price
      let positions :=
        if pos.shares - shares = 0 then
          p.positions.filter (fun q => !(q.ticker == ticker))
        else
          p.positions.map (fun q =>
            if q.ticker == ticker then { q with shares := q.shares - shares } else q)
      ⟨true, ⟨p.cash + proceeds, positions, p.options⟩,
        ctx.append (Txn.sellStock ctx.current_date ticker shares price proceeds)⟩

/-- Embeds `TradingAction.buy_call` (`trading_actions.py` lines 66–97). -/
def buy_call (ctx : TAContext) (p : Portfolio) (ticker : String) (strike : ℚ)
    (expiration : Int) (contracts : ℤ) (premium : ℚ) : ActionResult :=
  let premium_cost := premium * contracts * 100
  if p.cash < premium_cost then ⟨false, p, ctx⟩
  else
    ⟨true,
      ⟨p.cash - premium_cost, p.positions,
        p.options ++ [⟨ticker, strike, expiration, OptType.call, contracts,
          -premium_cost, Side.long⟩]⟩,
      ctx.append (Txn.buyCall ctx.current_date ticker contracts strike premium
        premium_cost expiration)⟩

/-- Embeds `TradingAction.sell_call` (`trading_actions.py` lines 99–131; the copy in
`simulation.py` lines 137–170 is identical). -/
def sell_call (ctx : TAContext) (p : Portfolio) (ticker : String) (strike : ℚ)
    (expiration : Int) (contracts : ℤ) (premium : ℚ) : ActionResult :=
  let required_shares : ℚ := contracts * 100
  match p.findPos ticker with
  | none => ⟨false, p, ctx⟩
  | some pos =>
    if pos.shares < required_shares then ⟨false, p, ctx⟩
    else
      let premium_collected := premium * contracts * 100
      ⟨true,
        ⟨p.cash + premium_collected, p.positions,
          p.options ++ [⟨ticker, strike, expiration, OptType.call, contracts,
            premium_collected, Side.short⟩]⟩,
        ctx.append (Txn.sellCall ctx.current_date ticker contracts strike premium
          premium_collected expiration)⟩

/-- Embeds `TradingAction.sell_put` (`trading_actions.py` lines 133–161; the copy in
`simulation.py` lines 172–201 is identical).  It has no failure path. -/
def sell_put (ctx : TAContext) (p : Portfolio) (ticker : String) (strike : ℚ)
    (expiration : Int) (contracts : ℤ) (premium : ℚ) : ActionResult :=
  let premium_collected := premium * contracts * 100
  ⟨true,
    ⟨p.cash + premium_collected, p.positions,
      p.options ++ [⟨ticker, strike, expiration, OptType.put, contracts,
        premium_collected, Side.short⟩]⟩,
    ctx.append (Txn.sellPut ctx.current_date ticker contracts strike premium
      premium_collected expiration)⟩

/-- Embeds `TradingAction.buy_put` (`trading_actions.py` lines 163–194). -/
def buy_put (ctx : TAContext) (p : Portfolio) (ticker : String) (strike : ℚ)
    (expiration : Int) (contracts : ℤ) (premium : ℚ) : ActionResult :=
  let premium_cost := premium * contracts * 100
  if p.cash < premium_cost then ⟨false, p, ctx⟩
  else
    ⟨true,
      ⟨p.cash - premium_cost, p.positions,
        p.options ++ [⟨ticker, strike, expiration, OptType.put, contracts,
          -premium_cost, Side.long⟩]⟩,
      ctx.append (Txn.buyPut ctx.current_date ticker contracts strike premium
        premium_cost expiration)⟩

/-- The matching condition of the `for i, opt in enumerate(...)` search in
`close_call` / `close_put`: same ticker, requested option type, a long
position, same strike and expiration, and at least `contracts` remaining. -/
def matchesClose (ticker : String) (ty : OptType) (strike : ℚ)
    (expiration : Int) (contracts : ℤ) (opt : OptionContract) : Prop :=
  opt.ticker = ticker ∧ opt.option_type = ty ∧ opt.position = Side.long ∧
    opt.strike = strike ∧ opt.expiration_date = expiration ∧
    contracts ≤ opt.contracts

instance (ticker : String) (ty : OptType) (strike : ℚ) (expiration : Int)
    (contracts : ℤ) (opt : OptionContract) :
    Decidable (matchesClose ticker ty strike expiration contracts opt) := by
  unfold matchesClose
  infer_instance

/-- Index of the first list element satisfying `pred` (the `for ... break`
search of `close_call` / `close_put`). -/
def findMatchIdx (pred : OptionContract → Bool) : List OptionContract → Option Nat
  | [] => none
  | o :: os => if pred o then some 0 else (findMatchIdx pred os).map (· + 1)

/-- Shared body of `close_call` / `close_put` after the search: credit the
premium, then remove the matched contract or decrement its count. -/
def closeAt (p : Portfolio) (i : Nat) (contracts : ℤ) (premium : ℚ) :
    Portfolio :=
  let premium_collected := premium * contracts * 100
  let options :=
    match p.options[i]? with
    | some opt =>
      if opt.contracts = contracts then p.options.eraseIdx i
      else p.options.set i { opt with contracts := opt.contracts - contracts }
    | none => p.options
  ⟨p.cash + premium_collected, p.positions, options⟩

/-- Embeds `TradingAction.close_call` (`trading_actions.py` lines 196–234). -/
def close_call (ctx : TAContext) (p : Portfolio) (ticker : String) (strike : ℚ)
    (expiration : Int) (contracts : ℤ) (premium : ℚ) : ActionResult :=
  match findMatchIdx
      (fun opt => decide (matchesClose ticker OptType.call strike expiration contracts opt))
      p.options with
  | none => ⟨false, p, ctx⟩
  | some i =>
    ⟨true, closeAt p i contracts premium,
      ctx.append (Txn.closeCall ctx.current_date ticker contracts strike premium
        (premium * contracts * 100) expiration)⟩

/-- Embeds `TradingAction.close_put` (`trading_actions.py` lines 236–274). -/
def close_put (ctx : TAContext) (p : Portfolio) (ticker : String) (strike : ℚ)
    (expiration : Int) (contracts : ℤ) (premium : ℚ) : ActionResult :=
  match findMatchIdx
      (fun opt => decide (matchesClose ticker OptType.put strike expiration contracts opt))
      p.options with
  | none => ⟨false, p, ctx⟩
  | some i =>
    ⟨true, closeAt p i contracts premium,
      ctx.append (Txn.closePut ctx.current_date ticker contracts strike premium
        (premium * contracts * 100) expiration)⟩

end TradingAction

/-- One executor call with its arguments. -/
inductive Op where
  | buyStock (ticker : String) (shares price : ℚ)
  | sellStock (ticker : String) (shares price : ℚ)
  | buyCall (ticker : String) (strike : ℚ) (expiration : Int) (contracts : ℤ) (premium : ℚ)
  | sellCall (ticker : String) (strike : ℚ) (expiration : Int) (contracts : ℤ) (premium : ℚ)
  | sellPut (ticker : String) (strike : ℚ) (expiration : Int) (contracts : ℤ) (premium : ℚ)
  | buyPut (ticker : String) (strike : ℚ) (expiration : Int) (contracts : ℤ) (premium : ℚ)
  | closeCall (ticker : String) (strike : ℚ) (expiration : Int) (contracts : ℤ) (premium : ℚ)
  | closePut (ticker : String) (strike : ℚ) (expiration : Int) (contracts : ℤ) (premium : ℚ)
  deriving DecidableEq

/-- Dispatch one `Op` to the corresponding `TradingAction` operation. -/
def applyOp (ctx : TAContext) (p : Portfolio) : Op → ActionResult
  | .buyStock t sh pr => TradingAction.buy_stock ctx p t sh pr
  | .sellStock t sh pr => TradingAction.sell_stock ctx p t sh pr
  | .buyCall t k e c pm => TradingAction.buy_call ctx p t k e c pm
  | .sellCall t k e c pm => TradingAction.sell_call ctx p t k e c pm
  | .sellPut t k e c pm => TradingAction.sell_put ctx p t k e c pm
  | .buyPut t k e c pm => TradingAction.buy_put ctx p t k e c pm
  | .closeCall t k e c pm => TradingAction.close_call ctx p t k e c pm
  | .closePut t k e c pm => TradingAction.close_put ctx p t k e c pm

/-- A finite sequence of executor calls, applied in order (each call's
portfolio and log state feed the next call). -/
def applyOps (ctx : TAContext) (p : Portfolio) : List Op → Portfolio × TAContext
  | [] => (p, ctx)
  | op :: ops =>
    let r := applyOp ctx p op
    applyOps r.ctx r.portfolio ops

/-! ### Option pricer (`black_scholes.py`), exact-real embedding -/

/-- Embeds `scipy.stats.norm.cdf`: the standard normal cumulative distribution
function, `Φ(x) = (2π)^(-1/2) ∫_{-∞}^{x} exp(-t²/2) dt`. -/
noncomputable def norm_cdf (x : ℝ) : ℝ :=
  (Real.sqrt (2 * Real.pi))⁻¹ * ∫ t in Set.Iic x, Real.exp (-(1 / 2) * t ^ 2)

/-- Embeds `d1 = (np.log(S/K) + (r + sigma**2/2)*t) / (sigma * np.sqrt(t))`. -/
noncomputable def bs_d1 (S K σ r t : ℝ) : ℝ :=
  (Real.log (S / K) + (r + σ ^ 2 / 2) * t) / (σ * Real.sqrt t)

/-- Embeds `d2 = d1 - sigma * np.sqrt(t)`. -/
noncomputable def bs_d2 (S K σ r t : ℝ) : ℝ :=
  bs_d1 S K σ r t - σ * Real.sqrt t

/-- Embeds `black_scholes_call` (`black_scholes.py` lines 4–8), read over exact real
arithmetic.  The source has no guard on its inputs: it is the bare formula. -/
noncomputable def black_scholes_call (S K σ r t : ℝ) : ℝ :=
  S * norm_cdf (bs_d1 S K σ r t) - K * Real.exp (-r * t) * norm_cdf (bs_d2 S K σ r t)

/-- Embeds `black_scholes_put` (`black_scholes.py` lines 11–15), read over exact real
arithmetic. -/
noncomputable def black_scholes_put (S K σ r t : ℝ) : ℝ :=
  K * Real.exp (-r * t) * norm_cdf (-bs_d2 S K σ r t) - S * norm_cdf (-bs_d1 S K σ r t)

/-! ### Option pricer, partiality-tracking embedding

The floating-point code propagates NaN/±inf out of `np.log` on a non-positive
argument, `np.sqrt` on a negative argument, and division by zero.  The
embedding below marks each such event as `none` ("a numerical error
occurred"); a `some` result means the computation stayed on the smooth domain
of the formula and produced that real number. -/

/-- Division, `none` on a zero divisor (a float division by zero). -/
noncomputable def numDiv (a b : ℝ) : Option ℝ :=
  if b = 0 then none else some (a / b)

/-- Embeds `np.log`, `none` on a non-positive argument (NaN for negatives, `-inf`
with a divide-by-zero warning at `0`). -/
noncomputable def numLog (x : ℝ) : Option ℝ :=
  if x ≤ 0 then none else some (Real.log x)

/-- Embeds `np.sqrt`, `none` on a negative argument (NaN). -/
noncomputable def numSqrt (x : ℝ) : Option ℝ :=
  if x < 0 then none else some (Real.sqrt x)

/-- Embeds `d1` of `black_scholes.py` with numerical-error tracking. -/
noncomputable def bs_d1_num (S K σ r t : ℝ) : Option ℝ := do
  let q ← numDiv S K
  let l ← numLog q
  let s ← numSqrt t
  numDiv (l + (r + σ ^ 2 / 2) * t) (σ * s)

/-- Embeds `black_scholes_call` with numerical-error tracking. -/
noncomputable def black_scholes_call_num (S K σ r t : ℝ) : Option ℝ := do
  let a ← bs_d1_num S K σ r t
  let s ← numSqrt t
  let b := a - σ * s
  some (S * norm_cdf a - K * Real.exp (-r * t) * norm_cdf b)

/-- Embeds `black_scholes_put` with numerical-error tracking. -/
noncomputable def black_scholes_put_num (S K σ r t : ℝ) : Option ℝ := do
  let a ← bs_d1_num S K σ r t
  let s ← numSqrt t
  let b := a - σ * s
  some (K * Real.exp (-r * t) * norm_cdf (-b) - S * norm_cdf (-a))

/-! ### Portfolio valuation -/

/-- Embeds `prices.get(ticker, 0)` on the prices dict. -/
def priceGet (prices : List (String × ℚ)) (ticker : String) : ℚ :=
  ((prices.find? (fun pr => pr.1 == ticker)).map Prod.snd).getD 0

namespace SimPortfolio

/-- Embeds `Portfolio.get_stock_value` (`simulation.py` lines 35–36). -/
def get_stock_value (p : Portfolio) (prices : List (String × ℚ)) : ℚ :=
  (p.positions.map (fun pos => pos.shares * priceGet prices pos.ticker)).sum

/-- Embeds `Portfolio._get_intrinsic_value` (`simulation.py` lines 54–64): intrinsic
value per share, negated for a short position. -/
def get_intrinsic_value (opt : OptionContract) (prices : List (String × ℚ)) : ℚ :=
  let current_price := priceGet prices opt.ticker
  let intrinsic :=
    match opt.option_type with
    | .call => max 0 (current_price - opt.strike)
    | .put => max 0 (opt.strike - current_price)
  match opt.position with
  | .short => -intrinsic
  | .long => intrinsic

/-- Embeds `Portfolio.get_options_value` (`simulation.py` lines 38–52).  Note that
the source tests `if pricing_func:` but computes the same
`intrinsic * contracts * 100` term in both branches, so the supplied pricing
function is never applied. -/
def get_options_value (p : Portfolio) (current_date : Int)
    (prices : List (String × ℚ))
    (pricing_func : Option (OptionContract → ℚ → ℚ)) : ℚ :=
  (p.options.map (fun opt =>
    if current_date ≥ opt.expiration_date then 0
    else
      match pricing_func with
      | some _ => get_intrinsic_value opt prices * opt.contracts * 100
      | none => get_intrinsic_value opt prices * opt.contracts * 100)).sum

/-- Embeds `Portfolio.get_total_value` (`simulation.py` lines 66–70). -/
def get_total_value (p : Portfolio) (current_date : Int)
    (prices : List (String × ℚ))
    (pricing_func : Option (OptionContract → ℚ → ℚ)) : ℚ :=
  p.cash + get_stock_value p prices + get_options_value p current_date prices pricing_func

/-- One row of `self.history` (`simulation.py` lines 344–350). -/
structure Snapshot where
  date : Int
  cash : ℚ
  stock_value : ℚ
  options_value : ℚ
  total_value : ℚ
  deriving DecidableEq

/-- The end-of-day valuation appended by `BacktestSimulation.run`
(`simulation.py` lines 340–350): `get_stock_value`, `get_options_value` and
`get_total_value` are called with only `(current_date, current_prices)`, so
`pricing_func` is the default `None`. -/
def dailySnapshot (p : Portfolio) (current_date : Int)
    (prices : List (String × ℚ)) : Snapshot :=
  { date := current_date
    cash := p.cash
    stock_value := get_stock_value p prices
    options_value := get_options_value p current_date prices none
    total_value := get_total_value p current_date prices none }

end SimPortfolio

namespace UtilPortfolio

/-- Embeds `Portfolio._get_intrinsic_value_simple` (`portfolio.py` lines 82–89). -/
def get_intrinsic_value_simple (opt : OptionContract)
    (prices : List (String × ℚ)) : ℚ :=
  let current_price := priceGet prices opt.ticker
  match opt.option_type with
  | .call => max 0 (current_price - opt.strike)
  | .put => max 0 (opt.strike - current_price)

/-- Embeds `Portfolio.get_options_value` (`portfolio.py` lines 36–80).  Contracts
whose resolved price is `0` are skipped, as are contracts with
`days_to_expiration ≤ 0`; with a volatility supplied the value is the
Black–Scholes price (the source guard is
`volatility is not None and time_to_expiration > 0`), otherwise the simple
intrinsic value; long positions add, short positions subtract. -/
noncomputable def get_options_value (p : Portfolio) (current_date : Int)
    (prices : List (String × ℚ)) (volatility : Option ℝ)
    (risk_free_rate : ℝ) : ℝ :=
  (p.options.map (fun opt =>
    if current_date ≥ opt.expiration_date then (0 : ℝ)
    else
      let current_price := priceGet prices opt.ticker
      if current_price = 0 then 0
      else
        let days_to_expiration : ℤ := opt.expiration_date - current_date
        if days_to_expiration ≤ 0 then 0
        else
          let time_to_expiration : ℝ := (days_to_expiration : ℝ) / 365
          let option_value : ℝ :=
            match volatility with
            | some σ =>
              if time_to_expiration > 0 then
                match opt.option_type with
                | .call => black_scholes_call current_price opt.strike σ
                    risk_free_rate time_to_expiration
                | .put => black_scholes_put current_price opt.strike σ
                    risk_free_rate time_to_expiration
              else (get_intrinsic_value_simple opt prices : ℝ)
            | none => (get_intrinsic_value_simple opt prices : ℝ)
          match opt.position with
          | .long => option_value * opt.contracts * 100
          | .short => -(option_value * opt.contracts * 100))).sum

end UtilPortfolio

/-! ### Expiration handling (`BacktestSimulation._handle_option_expirations`) -/

/-- The body of the `for i, opt in enumerate(self.portfolio.options)` loop in
`_handle_option_expirations` (`simulation.py` lines 261–297) for one
contract, acting on the pair (portfolio, transaction list).  `run` has set
the executor's class-level log to `self.transactions` for the day, so the
executor context inside the loop is `⟨some txns, date⟩`; both the direct
`self.transactions.append` of the `*_EXERCISED` record and the append done
inside `sell_stock` / `buy_stock` extend the same list.  The boolean result
of `sell_stock` / `buy_stock` is discarded, exactly as in the source. -/
def exerciseStep (current_date : Int) (prices : List (String × ℚ))
    (st : Portfolio × List Txn) (opt : OptionContract) : Portfolio × List Txn :=
  if current_date ≥ opt.expiration_date then
    let current_price := priceGet prices opt.ticker
    if opt.option_type = OptType.call ∧ opt.position = Side.short then
      if current_price ≥ opt.strike then
        let shares_to_sell : ℚ := (opt.contracts : ℚ) * 100
        let txns := st.2 ++ [Txn.callExercised current_date opt.ticker
          opt.contracts opt.strike current_price shares_to_sell]
        let r := TradingAction.sell_stock ⟨some txns, current_date⟩ st.1
          opt.ticker shares_to_sell opt.strike
        (r.portfolio, r.ctx.txlog.getD txns)
      else st
    else if opt.option_type = OptType.put ∧ opt.position = Side.short then
      if current_price ≤ opt.strike then
        let shares_to_buy : ℚ := (opt.contracts : ℚ) * 100
        let txns := st.2 ++ [Txn.putExercised current_date opt.ticker
          opt.contracts opt.strike current_price shares_to_buy]
        let r := TradingAction.buy_stock ⟨some txns, current_date⟩ st.1
          opt.ticker shares_to_buy opt.strike
        (r.portfolio, r.ctx.txlog.getD txns)
      else st
    else st
  else st

/-- Embeds `BacktestSimulation._handle_option_expirations` (`simulation.py` lines
258–300).  The loop walks the options list (which `sell_stock` / `buy_stock`
never modify), then pops the collected expired indices in reverse order,
which removes exactly the contracts with `current_date ≥ expiration_date`. -/
def handle_option_expirations (current_date : Int)
    (prices : List (String × ℚ)) (p : Portfolio) (txns : List Txn) :
    Portfolio × List Txn :=
  let st := p.options.foldl (exerciseStep current_date prices) (p, txns)
  (⟨st.1.cash, st.1.positions,
      st.1.options.filter (fun opt => !decide (current_date ≥ opt.expiration_date))⟩,
    st.2)

/-! ### Summary statistics (`BacktestSimulation.print_performance_stats`) -/

/-- Embeds `df['total_value'].pct_change().dropna()` on the recorded daily total
values: the day-over-day fractional changes.  (`pct_change` puts NaN in the
first row, which `dropna` removes; for a series containing a zero value the
pandas result would instead contain ±inf entries, so the theorems below
restrict to series of non-zero values.) -/
def pct_change (vs : List ℚ) : List ℚ :=
  List.zipWith (fun prev next => next / prev - 1) vs vs.tail

/-- Embeds `Series.mean()`: NaN (`none`) on an empty series. -/
def series_mean (l : List ℚ) : Option ℚ :=
  if l.length = 0 then none else some (l.sum / l.length)

/-- Embeds `Series.var()` with the pandas default `ddof=1` (sample variance): NaN
(`none`) on fewer than two observations. -/
def series_var (l : List ℚ) : Option ℚ :=
  if l.length < 2 then none
  else
    let m := l.sum / l.length
    some ((l.map (fun x => (x - m) ^ 2)).sum / ((l.length : ℚ) - 1))

/-- Embeds `Series.std()` = square root of the sample variance. -/
noncomputable def series_std (l : List ℚ) : Option ℝ :=
  (series_var l).map (fun v => Real.sqrt (v : ℝ))

/-- The `'sharpe_ratio'` entry of `print_performance_stats` (`simulation.py`
line 373): `returns.mean() / returns.std() * np.sqrt(252) if len(returns) > 0
else 0`, with `none` standing for a NaN result. -/
noncomputable def sharpeStat (vs : List ℚ) : Option ℝ :=
  let returns := pct_change vs
  if returns.length > 0 then do
    let m ← series_mean returns
    let sd ← series_std returns
    let q ← numDiv (m : ℝ) sd
    some (q * Real.sqrt 252)
  else some 0

/-- The `'volatility'` entry of `print_performance_stats` (`simulation.py`
line 375): `returns.std() * np.sqrt(252) * 100`, with `none` for NaN. -/
noncomputable def volatilityStat (vs : List ℚ) : Option ℝ :=
  (series_std (pct_change vs)).map (fun sd => sd * Real.sqrt 252 * 100)

/-! ## Claim theorems -/

/-! ### C3: end-of-day valuation and the option pricer -/

/-- C3 counterexample.  The claim says each unexpired option in the daily
valuation snapshot is priced with the Option Pricer (full time value)
whenever a volatility is available and time-to-expiry is positive.  Concrete
input: one unexpired long call (strike 50, spot 60, expiration 10 days away)
and a pricing function valuing any contract at 7 per share; the claim
predicts an options value of `7 × 1 × 100 = 700`, but the code yields the
intrinsic value `(60 − 50) × 1 × 100 = 1000`: `get_options_value` computes
intrinsic value in both of its branches and never applies the supplied
pricing function. -/
theorem daily_valuation_ignores_pricer_concrete :
    SimPortfolio.get_options_value
        ⟨10000, [], [⟨"A", 50, 10, OptType.call, 1, -700, Side.long⟩]⟩ 0
        [("A", 60)] (some (fun _ _ => 7)) = 1000
      ∧ ((1000 : ℚ) ≠ 7 * 1 * 100) := by
  constructor
  · norm_num [SimPortfolio.get_options_value, SimPortfolio.get_intrinsic_value,
      priceGet]
  · norm_num

/-- C3 (amended): the Engine's end-of-day revaluation is intrinsic-only.
`run` calls `get_options_value` with no pricing function, and
`get_options_value` itself returns the same intrinsic-value total whatever
pricing function is supplied (its two branches are identical), so the daily
snapshot's options value is the intrinsic value and the volatility series
plays no role in it. -/
theorem daily_valuation_intrinsic_only (p : Portfolio) (current_date : Int)
    (prices : List (String × ℚ))
    (pricing_func : Option (OptionContract → ℚ → ℚ)) :
    SimPortfolio.get_options_value p current_date prices pricing_func
        = SimPortfolio.get_options_value p current_date prices none
      ∧ (SimPortfolio.dailySnapshot p current_date prices).options_value
        = SimPortfolio.get_options_value p current_date prices none := by
  refine ⟨?_, rfl⟩
  cases pricing_func <;> rfl

/-! ### C9: engine-side valuation of a put with no price data -/

/-- C9: in the engine-side `Portfolio` of `simulation.py`, an unexpired put
on a ticker absent from the prices map resolves the price to `0` and is
valued at full strike intrinsic: a long put adds
`strike × contracts × 100`, a short put subtracts it; the `portfolio.py`
valuation instead skips any contract whose resolved price is `0`. -/
theorem sim_portfolio_missing_price_put_value (current_date : Int)
    (prices : List (String × ℚ)) (opt : OptionContract)
    (rest : List OptionContract) (cash : ℚ) (positions : List Position)
    (pricing_func : Option (OptionContract → ℚ → ℚ))
    (volatility : Option ℝ) (risk_free_rate : ℝ)
    (hmiss : prices.find? (fun pr => pr.1 == opt.ticker) = none)
    (hput : opt.option_type = OptType.put)
    (hexp : current_date < opt.expiration_date)
    (hstrike : 0 ≤ opt.strike) :
    SimPortfolio.get_options_value ⟨cash, positions, opt :: rest⟩ current_date
          prices pricing_func
        = (if opt.position = Side.long then opt.strike * opt.contracts * 100
            else -(opt.strike * opt.contracts * 100))
          + SimPortfolio.get_options_value ⟨cash, positions, rest⟩ current_date
              prices pricing_func
      ∧ UtilPortfolio.get_options_value ⟨cash, positions, opt :: rest⟩
          current_date prices volatility risk_free_rate
        = UtilPortfolio.get_options_value ⟨cash, positions, rest⟩ current_date
            prices volatility risk_free_rate := by
  have hprice : priceGet prices opt.ticker = 0 := by
    simp [priceGet, hmiss]
  constructor
  · simp only [SimPortfolio.get_options_value, List.map_cons, List.sum_cons]
    rw [if_neg (not_le.mpr hexp)]
    have hintr : SimPortfolio.get_intrinsic_value opt prices
        = (if opt.position = Side.long then opt.strike else -opt.strike) := by
      unfold SimPortfolio.get_intrinsic_value
      rw [hprice, hput]
      cases hpos : opt.position <;> simp [max_eq_right hstrike]
    cases pricing_func <;>
      · rw [hintr]
        by_cases hl : opt.position = Side.long <;> simp [hl]
  · simp only [UtilPortfolio.get_options_value, List.map_cons, List.sum_cons]
    rw [if_neg (not_le.mpr hexp), hprice]
    simp

/-- C9 witness: a long put on ticker `"A"` (strike 50, 2 contracts) with only
ticker `"B"` priced. -/
theorem sim_portfolio_missing_price_put_value_witness :
    SimPortfolio.get_options_value
          ⟨0, [], [⟨"A", 50, 5, OptType.put, 2, 100, Side.long⟩]⟩ 0
          [("B", 10)] none
        = (if (Side.long : Side) = Side.long then (50 : ℚ) * 2 * 100
            else -((50 : ℚ) * 2 * 100))
          + SimPortfolio.get_options_value ⟨0, [], []⟩ 0 [("B", 10)] none
      ∧ UtilPortfolio.get_options_value
          ⟨0, [], [⟨"A", 50, 5, OptType.put, 2, 100, Side.long⟩]⟩ 0
          [("B", 10)] none 0.05
        = UtilPortfolio.get_options_value ⟨0, [], []⟩ 0 [("B", 10)] none 0.05 :=
  sim_portfolio_missing_price_put_value 0 [("B", 10)]
    ⟨"A", 50, 5, OptType.put, 2, 100, Side.long⟩ [] 0 [] none none 0.05
    (by decide) rfl (by decide) (by norm_num)

/-! ### C2: degenerate inputs to the option pricer -/

/-- Helper: `d1` of `black_scholes.py` hits a numerical error whenever the
strike is positive and the spot is non-positive (logarithm of a non-positive
quotient), the volatility is zero (division by `sigma * sqrt(t) = 0`), or the
time is non-positive (square root of a negative number, or division by
`sigma * 0`). -/
theorem bs_d1_num_eq_none (S K σ r t : ℝ) (hK : 0 < K)
    (h : S ≤ 0 ∨ σ = 0 ∨ t ≤ 0) : bs_d1_num S K σ r t = none := by
  unfold bs_d1_num
  rcases h with hS | hσ | ht
  · have h1 : numDiv S K = some (S / K) := by
      unfold numDiv; rw [if_neg hK.ne']
    have h2 : numLog (S / K) = none := by
      unfold numLog
      rw [if_pos (div_nonpos_iff.mpr (Or.inr ⟨hS, hK.le⟩))]
    simp [h1, h2]
  · rcases lt_or_le t 0 with ht' | ht'
    · have h3 : numSqrt t = none := by unfold numSqrt; rw [if_pos ht']
      cases hq : numDiv S K with
      | none => simp [hq]
      | some q =>
        cases hl : numLog q with
        | none => simp [hq, hl]
        | some l => simp [hq, hl, h3]
    · have h3 : numSqrt t = some (Real.sqrt t) := by
        unfold numSqrt; rw [if_neg (not_lt.mpr ht')]
      have h4 : ∀ a : ℝ, numDiv a (σ * Real.sqrt t) = none := by
        intro a; unfold numDiv; rw [hσ, zero_mul, if_pos rfl]
      cases hq : numDiv S K with
      | none => simp [hq]
      | some q =>
        cases hl : numLog q with
        | none => simp [hq, hl]
        | some l => simp [hq, hl, h3, h4]
  · rcases lt_or_le t 0 with ht' | ht'
    · have h3 : numSqrt t = none := by unfold numSqrt; rw [if_pos ht']
      cases hq : numDiv S K with
      | none => simp [hq]
      | some q =>
        cases hl : numLog q with
        | none => simp [hq, hl]
        | some l => simp [hq, hl, h3]
    · have ht0 : t = 0 := le_antisymm ht ht'
      have h3 : numSqrt t = some 0 := by
        unfold numSqrt; rw [if_neg (not_lt.mpr ht'), ht0, Real.sqrt_zero]
      have h4 : ∀ a : ℝ, numDiv a 0 = none := by
        intro a; unfold numDiv; rw [if_pos rfl]
      cases hq : numDiv S K with
      | none => simp [hq]
      | some q =>
        cases hl : numLog q with
        | none => simp [hq, hl]
        | some l => simp [hq, hl, h3, h4]

/-- C2 counterexample.  The claim says `black_scholes_call` and
`black_scholes_put` return the defined value `0` whenever any of
`S, K, σ, t` is `≤ 0`.  At the concrete degenerate input
`S = -1, K = 1, σ = 1, r = 0, t = 1` the code computes `np.log(S/K)` on the
negative number `-1`, a numerical error (NaN): the source has no
degenerate-input guard at all, so the result is not the defined value `0`. -/
theorem black_scholes_degenerate_not_zero :
    black_scholes_call_num (-1) 1 1 0 1 = none
      ∧ black_scholes_put_num (-1) 1 1 0 1 = none := by
  have hd : bs_d1_num (-1) 1 1 0 1 = none :=
    bs_d1_num_eq_none (-1) 1 1 0 1 (by norm_num) (Or.inl (by norm_num))
  constructor
  · unfold black_scholes_call_num; simp [hd]
  · unfold black_scholes_put_num; simp [hd]

/-- C2 (amended): the pricing functions have no degenerate-input guard.
Whenever the strike is positive and the spot is non-positive, the volatility
is exactly zero, or the time is non-positive, both functions propagate a
numerical error (NaN from the logarithm of a non-positive number or the
square root of a negative number, or a division by zero) instead of
returning the defined value `0` the claim requires. -/
theorem black_scholes_degenerate_numerical_error (S K σ r t : ℝ) (hK : 0 < K)
    (h : S ≤ 0 ∨ σ = 0 ∨ t ≤ 0) :
    black_scholes_call_num S K σ r t = none
      ∧ black_scholes_put_num S K σ r t = none := by
  have hd := bs_d1_num_eq_none S K σ r t hK h
  constructor
  · unfold black_scholes_call_num; simp [hd]
  · unfold black_scholes_put_num; simp [hd]

/-- C2 witness: zero volatility with otherwise ordinary inputs also yields a
numerical error, not `0`. -/
theorem black_scholes_degenerate_numerical_error_witness :
    black_scholes_call_num 2 1 0 0 1 = none
      ∧ black_scholes_put_num 2 1 0 0 1 = none :=
  black_scholes_degenerate_numerical_error 2 1 0 0 1 (by norm_num)
    (Or.inr (Or.inl rfl))

/-! ### C5: failure is a boolean, with no state change -/

/-- C5: every executor operation that fails (insufficient cash, insufficient
shares or position, or no matching contract) returns `false` and leaves the
portfolio and the transaction log exactly as they were.  In the embedding
every operation is a total function, reflecting that no failure path raises
an exception. -/
theorem executor_failure_leaves_state_unchanged (op : Op) (ctx : TAContext)
    (p : Portfolio) (h : (applyOp ctx p op).ok = false) :
    (applyOp ctx p op).portfolio = p ∧ (applyOp ctx p op).ctx = ctx := by
  cases op with
  | buyStock t sh pr =>
    revert h
    simp only [applyOp, TradingAction.buy_stock]
    split
    · intro _; exact ⟨rfl, rfl⟩
    · intro h; simp at h
  | sellStock t sh pr =>
    revert h
    simp only [applyOp, TradingAction.sell_stock]
    split
    · intro _; exact ⟨rfl, rfl⟩
    · split
      · intro _; exact ⟨rfl, rfl⟩
      · intro h; simp at h
  | buyCall t k e c pm =>
    revert h
    simp only [applyOp, TradingAction.buy_call]
    split
    · intro _; exact ⟨rfl, rfl⟩
    · intro h; simp at h
  | sellCall t k e c pm =>
    revert h
    simp only [applyOp, TradingAction.sell_call]
    split
    · intro _; exact ⟨rfl, rfl⟩
    · split
      · intro _; exact ⟨rfl, rfl⟩
      · intro h; simp at h
  | sellPut t k e c pm =>
    revert h
    simp only [applyOp, TradingAction.sell_put]
    intro h; simp at h
  | buyPut t k e c pm =>
    revert h
    simp only [applyOp, TradingAction.buy_put]
    split
    · intro _; exact ⟨rfl, rfl⟩
    · intro h; simp at h
  | closeCall t k e c pm =>
    revert h
    simp only [applyOp, TradingAction.close_call]
    split
    · intro _; exact ⟨rfl, rfl⟩
    · intro h; simp at h
  | closePut t k e c pm =>
    revert h
    simp only [applyOp, TradingAction.close_put]
    split
    · intro _; exact ⟨rfl, rfl⟩
    · intro h; simp at h

/-- C5 witness: selling stock that is not held fails and changes nothing. -/
theorem executor_failure_leaves_state_unchanged_witness :
    (applyOp ⟨some [], 0⟩ ⟨100, [], []⟩ (Op.sellStock "A" 5 10)).portfolio
        = ⟨100, [], []⟩
      ∧ (applyOp ⟨some [], 0⟩ ⟨100, [], []⟩ (Op.sellStock "A" 5 10)).ctx
        = ⟨some [], 0⟩ :=
  executor_failure_leaves_state_unchanged (Op.sellStock "A" 5 10)
    ⟨some [], 0⟩ ⟨100, [], []⟩
    (by simp [applyOp, TradingAction.sell_stock, Portfolio.findPos])

/-! ### C6: success appends exactly one transaction record -/

/-- C6: when the transaction log has been set and an executor operation
succeeds, the operation appends exactly one transaction record to the log
before returning: the resulting log is the old log with one record at the
end. -/
theorem executor_success_appends_one_record (op : Op) (ctx : TAContext)
    (p : Portfolio) (l : List Txn) (hl : ctx.txlog = some l)
    (h : (applyOp ctx p op).ok = true) :
    ∃ rec, (applyOp ctx p op).ctx.txlog = some (l ++ [rec]) := by
  cases op with
  | buyStock t sh pr =>
    revert h
    simp only [applyOp, TradingAction.buy_stock]
    split
    · intro h; simp at h
    · intro _
      exact ⟨Txn.buyStock ctx.current_date t sh pr (sh * pr),
        by simp [TAContext.append, hl]⟩
  | sellStock t sh pr =>
    revert h
    simp only [applyOp, TradingAction.sell_stock]
    split
    · intro h; simp at h
    · split
      · intro h; simp at h
      · intro _
        exact ⟨Txn.sellStock ctx.current_date t sh pr (sh * pr),
          by simp [TAContext.append, hl]⟩
  | buyCall t k e c pm =>
    revert h
    simp only [applyOp, TradingAction.buy_call]
    split
    · intro h; simp at h
    · intro _
      exact ⟨Txn.buyCall ctx.current_date t c k pm (pm * c * 100) e,
        by simp [TAContext.append, hl]⟩
  | sellCall t k e c pm =>
    revert h
    simp only [applyOp, TradingAction.sell_call]
    split
    · intro h; simp at h
    · split
      · intro h; simp at h
      · intro _
        exact ⟨Txn.sellCall ctx.current_date t c k pm (pm * c * 100) e,
          by simp [TAContext.append, hl]⟩
  | sellPut t k e c pm =>
    exact ⟨Txn.sellPut ctx.current_date t c k pm (pm * c * 100) e,
      by simp [applyOp, TradingAction.sell_put, TAContext.append, hl]⟩
  | buyPut t k e c pm =>
    revert h
    simp only [applyOp, TradingAction.buy_put]
    split
    · intro h; simp at h
    · intro _
      exact ⟨Txn.buyPut ctx.current_date t c k pm (pm * c * 100) e,
        by simp [TAContext.append, hl]⟩
  | closeCall t k e c pm =>
    revert h
    simp only [applyOp, TradingAction.close_call]
    split
    · intro h; simp at h
    · intro _
      exact ⟨Txn.closeCall ctx.current_date t c k pm (pm * c * 100) e,
        by simp [TAContext.append, hl]⟩
  | closePut t k e c pm =>
    revert h
    simp only [applyOp, TradingAction.close_put]
    split
    · intro h; simp at h
    · intro _
      exact ⟨Txn.closePut ctx.current_date t c k pm (pm * c * 100) e,
        by simp [TAContext.append, hl]⟩

/-- C6 witness: a funded stock purchase succeeds and appends one record. -/
theorem executor_success_appends_one_record_witness :
    ∃ rec,
      (applyOp ⟨some [], 0⟩ ⟨1000, [], []⟩ (Op.buyStock "A" 5 10)).ctx.txlog
        = some ([] ++ [rec]) :=
  executor_success_appends_one_record (Op.buyStock "A" 5 10) ⟨some [], 0⟩
    ⟨1000, [], []⟩ [] rfl
    (by norm_num [applyOp, TradingAction.buy_stock])

/-! ### C4: cash never goes negative under executor sequences -/

/-- Well-formed executor arguments, as documented in the data model and the
operation contracts: positive share counts and prices for stock trades
(`shares>0, price>0`), positive contract counts (`integer >0`) and premiums
for option trades. -/
def wfOp : Op → Prop
  | .buyStock _ sh pr => 0 < sh ∧ 0 < pr
  | .sellStock _ sh pr => 0 < sh ∧ 0 < pr
  | .buyCall _ _ _ c pm => 0 < c ∧ 0 < pm
  | .sellCall _ _ _ c pm => 0 < c ∧ 0 < pm
  | .sellPut _ _ _ c pm => 0 < c ∧ 0 < pm
  | .buyPut _ _ _ c pm => 0 < c ∧ 0 < pm
  | .closeCall _ _ _ c pm => 0 < c ∧ 0 < pm
  | .closePut _ _ _ c pm => 0 < c ∧ 0 < pm

/-- Helper: one well-formed executor operation keeps cash non-negative. -/
theorem applyOp_cash_nonneg (op : Op) (ctx : TAContext) (p : Portfolio)
    (hwf : wfOp op) (hc : 0 ≤ p.cash) :
    0 ≤ (applyOp ctx p op).portfolio.cash := by
  have cast100 : ∀ c : ℤ, 0 < c → ∀ pm : ℚ, 0 < pm → 0 ≤ pm * (c : ℚ) * 100 := by
    intro c hcc pm hpm
    have h1 : (0 : ℚ) ≤ (c : ℚ) := by exact_mod_cast hcc.le
    have := mul_nonneg (mul_nonneg hpm.le h1) (by norm_num : (0 : ℚ) ≤ 100)
    linarith
  cases op with
  | buyStock t sh pr =>
    by_cases hcond : sh * pr > p.cash
    · simp only [applyOp, TradingAction.buy_stock, if_pos hcond]; exact hc
    · simp only [applyOp, TradingAction.buy_stock, if_neg hcond]
      show 0 ≤ p.cash - sh * pr
      linarith [not_lt.mp hcond]
  | sellStock t sh pr =>
    obtain ⟨hsh, hpr⟩ := hwf
    cases hfp : p.findPos t with
    | none => simp only [applyOp, TradingAction.sell_stock, hfp]; exact hc
    | some pos =>
      by_cases hlt : pos.shares < sh
      · simp only [applyOp, TradingAction.sell_stock, hfp, if_pos hlt]; exact hc
      · simp only [applyOp, TradingAction.sell_stock, hfp, if_neg hlt]
        show 0 ≤ p.cash + sh * pr
        have := mul_nonneg hsh.le hpr.le
        linarith
  | buyCall t k e c pm =>
    by_cases hcond : p.cash < pm * c * 100
    · simp only [applyOp, TradingAction.buy_call, if_pos hcond]; exact hc
    · simp only [applyOp, TradingAction.buy_call, if_neg hcond]
      show 0 ≤ p.cash - pm * c * 100
      linarith [not_lt.mp hcond]
  | sellCall t k e c pm =>
    obtain ⟨hcc, hpm⟩ := hwf
    cases hfp : p.findPos t with
    | none => simp only [applyOp, TradingAction.sell_call, hfp]; exact hc
    | some pos =>
      by_cases hlt : pos.shares < (c : ℚ) * 100
      · simp only [applyOp, TradingAction.sell_call, hfp, if_pos hlt]; exact hc
      · simp only [applyOp, TradingAction.sell_call, hfp, if_neg hlt]
        show 0 ≤ p.cash + pm * c * 100
        linarith [cast100 c hcc pm hpm]
  | sellPut t k e c pm =>
    obtain ⟨hcc, hpm⟩ := hwf
    simp only [applyOp, TradingAction.sell_put]
    show 0 ≤ p.cash + pm * c * 100
    linarith [cast100 c hcc pm hpm]
  | buyPut t k e c pm =>
    by_cases hcond : p.cash < pm * c * 100
    · simp only [applyOp, TradingAction.buy_put, if_pos hcond]; exact hc
    · simp only [applyOp, TradingAction.buy_put, if_neg hcond]
      show 0 ≤ p.cash - pm * c * 100
      linarith [not_lt.mp hcond]
  | closeCall t k e c pm =>
    obtain ⟨hcc, hpm⟩ := hwf
    cases hfi : TradingAction.findMatchIdx
        (fun opt => decide (TradingAction.matchesClose t OptType.call k e c opt))
        p.options with
    | none => simp only [applyOp, TradingAction.close_call, hfi]; exact hc
    | some i =>
      simp only [applyOp, TradingAction.close_call, hfi]
      show 0 ≤ (TradingAction.closeAt p i c pm).cash
      show 0 ≤ p.cash + pm * c * 100
      linarith [cast100 c hcc pm hpm]
  | closePut t k e c pm =>
    obtain ⟨hcc, hpm⟩ := hwf
    cases hfi : TradingAction.findMatchIdx
        (fun opt => decide (TradingAction.matchesClose t OptType.put k e c opt))
        p.options with
    | none => simp only [applyOp, TradingAction.close_put, hfi]; exact hc
    | some i =>
      simp only [applyOp, TradingAction.close_put, hfi]
      show 0 ≤ (TradingAction.closeAt p i c pm).cash
      show 0 ≤ p.cash + pm * c * 100
      linarith [cast100 c hcc pm hpm]

/-- Helper: a sequence of well-formed operations keeps cash non-negative. -/
theorem applyOps_cash_nonneg :
    ∀ (ops : List Op) (ctx : TAContext) (p : Portfolio),
      (∀ op ∈ ops, wfOp op) → 0 ≤ p.cash → 0 ≤ (applyOps ctx p ops).1.cash := by
  intro ops
  induction ops with
  | nil => intro ctx p _ hc; exact hc
  | cons op rest ih =>
    intro ctx p hwf hc
    simp only [applyOps]
    exact ih _ _ (fun o ho => hwf o (List.mem_cons_of_mem op ho))
      (applyOp_cash_nonneg op ctx p (hwf op (List.mem_cons_self op rest)) hc)

/-- C4: starting from non-negative cash, no sequence of well-formed executor
operations (positive share/contract counts and positive prices/premiums) can
drive cash negative; moreover every buy or premium-paying action whose cost
strictly exceeds the available cash is rejected (returns `false`) rather
than executed. -/
theorem executor_cash_never_negative (ops : List Op) (ctx : TAContext)
    (p : Portfolio) (hwf : ∀ op ∈ ops, wfOp op) (hc : 0 ≤ p.cash) :
    0 ≤ (applyOps ctx p ops).1.cash
      ∧ (∀ t sh pr, sh * pr > p.cash →
          (applyOp ctx p (Op.buyStock t sh pr)).ok = false)
      ∧ (∀ (t : String) (k : ℚ) (e c : ℤ) (pm : ℚ),
          p.cash < pm * (c : ℚ) * 100 →
          (applyOp ctx p (Op.buyCall t k e c pm)).ok = false)
      ∧ (∀ (t : String) (k : ℚ) (e c : ℤ) (pm : ℚ),
          p.cash < pm * (c : ℚ) * 100 →
          (applyOp ctx p (Op.buyPut t k e c pm)).ok = false) := by
  refine ⟨applyOps_cash_nonneg ops ctx p hwf hc, ?_, ?_, ?_⟩
  · intro t sh pr hgt
    simp only [applyOp, TradingAction.buy_stock, if_pos hgt]
  · intro t k e c pm hgt
    simp only [applyOp, TradingAction.buy_call, if_pos hgt]
  · intro t k e c pm hgt
    simp only [applyOp, TradingAction.buy_put, if_pos hgt]

/-- C4 witness: a concrete sequence of a purchase, a short put sale and a
long call purchase starting from 1000 in cash. -/
theorem executor_cash_never_negative_witness :
    0 ≤ ((applyOps ⟨some [], 0⟩ ⟨1000, [], []⟩
        [Op.buyStock "A" 5 10, Op.sellPut "A" 50 30 1 2,
          Op.buyCall "A" 60 30 1 3]).1.cash) :=
  (executor_cash_never_negative
      [Op.buyStock "A" 5 10, Op.sellPut "A" 50 30 1 2, Op.buyCall "A" 60 30 1 3]
      ⟨some [], 0⟩ ⟨1000, [], []⟩
      (by
        intro op hop
        simp only [List.mem_cons, List.not_mem_nil, or_false] at hop
        rcases hop with rfl | rfl | rfl <;> exact ⟨by norm_num, by norm_num⟩)
      (by norm_num)).1

/-! ### C10: early close matches only long contracts, first in order -/

/-- Helper: specification of the first-match search. -/
theorem findMatchIdx_spec (pred : OptionContract → Bool) :
    ∀ (l : List OptionContract) (i : Nat),
      TradingAction.findMatchIdx pred l = some i →
      ∃ a, l[i]? = some a ∧ pred a = true ∧
        ∀ j, j < i → ∀ b, l[j]? = some b → pred b = false := by
  intro l
  induction l with
  | nil => intro i h; simp [TradingAction.findMatchIdx] at h
  | cons o os ih =>
    intro i h
    by_cases hp : pred o
    · simp only [TradingAction.findMatchIdx, if_pos hp, Option.some.injEq] at h
      subst h
      exact ⟨o, by simp, hp, fun j hj => absurd hj (Nat.not_lt_zero j)⟩
    · simp only [TradingAction.findMatchIdx, if_neg hp,
        Option.map_eq_some'] at h
      obtain ⟨i', hi', rfl⟩ := h
      obtain ⟨a, hget, hpa, hfirst⟩ := ih i' hi'
      refine ⟨a, by simpa using hget, hpa, ?_⟩
      intro j hj b hb
      cases j with
      | zero =>
        simp only [List.getElem?_cons_zero, Option.some.injEq] at hb
        subst hb
        simpa using hp
      | succ j' =>
        exact hfirst j' (Nat.lt_of_succ_lt_succ hj) b (by simpa using hb)

/-- Helper: erasing an element that fails the filter predicate leaves the
filtered list unchanged. -/
theorem filter_eraseIdx_of_pred_false {α : Type} (pred : α → Bool) :
    ∀ (l : List α) (i : Nat) (a : α), l[i]? = some a → pred a = false →
      (l.eraseIdx i).filter pred = l.filter pred := by
  intro l
  induction l with
  | nil => intro i a h _; simp at h
  | cons o os ih =>
    intro i a h hp
    cases i with
    | zero =>
      simp only [List.getElem?_cons_zero, Option.some.injEq] at h
      subst h
      simp [List.filter_cons, hp]
    | succ n =>
      simp only [List.getElem?_cons_succ] at h
      cases hpo : pred o <;>
        simp [List.filter_cons, hpo, ih n a h hp]

/-- Helper: overwriting an element that fails the filter predicate with
another element failing it leaves the filtered list unchanged. -/
theorem filter_set_of_pred_false {α : Type} (pred : α → Bool) :
    ∀ (l : List α) (i : Nat) (a b : α), l[i]? = some a → pred a = false →
      pred b = false → (l.set i b).filter pred = l.filter pred := by
  intro l
  induction l with
  | nil => intro i a b h _ _; simp at h
  | cons o os ih =>
    intro i a b h hpa hpb
    cases i with
    | zero =>
      simp only [List.getElem?_cons_zero, Option.some.injEq] at h
      subst h
      simp [List.set_cons_zero, List.filter_cons, hpa, hpb]
    | succ n =>
      simp only [List.getElem?_cons_succ] at h
      cases hpo : pred o <;>
        simp [List.set_cons_succ, List.filter_cons, hpo, ih n a b h hpa hpb]

/-- Helper: `closeAt` at an index holding a long contract does not change
the short contracts of the portfolio. -/
theorem closeAt_shorts_preserved (p : Portfolio) (i : Nat) (c : ℤ) (pm : ℚ)
    (a : OptionContract) (ha : p.options[i]? = some a)
    (hlong : a.position = Side.long) :
    (TradingAction.closeAt p i c pm).options.filter
        (fun o => decide (o.position = Side.short))
      = p.options.filter (fun o => decide (o.position = Side.short)) := by
  unfold TradingAction.closeAt
  simp only [ha]
  by_cases hc : a.contracts = c
  · rw [if_pos hc]
    exact filter_eraseIdx_of_pred_false _ p.options i a ha (by simp [hlong])
  · rw [if_neg hc]
    exact filter_set_of_pred_false _ p.options i a _ ha (by simp [hlong])
      (by simp [hlong])

/-- C10: `close_call` and `close_put` never touch a short contract (the
filtered short contracts are unchanged by either operation), and on success
the contract that is reduced or removed is the first contract in insertion
order matching (ticker, option type, long position, strike, expiration) with
at least the requested count: it is a long contract, no earlier contract
matches, and the options list is the original with that contract removed
(exact count) or its count decremented (larger count). -/
theorem close_only_first_matching_long (ctx : TAContext) (p : Portfolio)
    (ticker : String) (strike : ℚ) (expiration : Int) (contracts : ℤ)
    (premium : ℚ) :
    ((TradingAction.close_call ctx p ticker strike expiration contracts
          premium).portfolio.options.filter
          (fun o => decide (o.position = Side.short))
        = p.options.filter (fun o => decide (o.position = Side.short)))
    ∧ ((TradingAction.close_put ctx p ticker strike expiration contracts
          premium).portfolio.options.filter
          (fun o => decide (o.position = Side.short))
        = p.options.filter (fun o => decide (o.position = Side.short)))
    ∧ ((TradingAction.close_call ctx p ticker strike expiration contracts
          premium).ok = true →
        ∃ i opt, p.options[i]? = some opt ∧ opt.position = Side.long ∧
          TradingAction.matchesClose ticker OptType.call strike expiration
            contracts opt ∧
          (∀ j, j < i → ∀ o, p.options[j]? = some o →
            ¬ TradingAction.matchesClose ticker OptType.call strike expiration
              contracts o) ∧
          (TradingAction.close_call ctx p ticker strike expiration contracts
              premium).portfolio.options
            = (if opt.contracts = contracts then p.options.eraseIdx i
                else p.options.set i
                  { opt with contracts := opt.contracts - contracts }))
    ∧ ((TradingAction.close_put ctx p ticker strike expiration contracts
          premium).ok = true →
        ∃ i opt, p.options[i]? = some opt ∧ opt.position = Side.long ∧
          TradingAction.matchesClose ticker OptType.put strike expiration
            contracts opt ∧
          (∀ j, j < i → ∀ o, p.options[j]? = some o →
            ¬ TradingAction.matchesClose ticker OptType.put strike expiration
              contracts o) ∧
          (TradingAction.close_put ctx p ticker strike expiration contracts
              premium).portfolio.options
            = (if opt.contracts = contracts then p.options.eraseIdx i
                else p.options.set i
                  { opt with contracts := opt.contracts - contracts })) := by
  refine ⟨?_, ?_, ?_, ?_⟩
  · cases hfi : TradingAction.findMatchIdx
        (fun opt => decide (TradingAction.matchesClose ticker OptType.call
          strike expiration contracts opt)) p.options with
    | none => simp only [TradingAction.close_call, hfi]
    | some i =>
      obtain ⟨a, hget, hpa, _⟩ := findMatchIdx_spec _ p.options i hfi
      have hmc := of_decide_eq_true hpa
      simp only [TradingAction.close_call, hfi]
      exact closeAt_shorts_preserved p i contracts premium a hget hmc.2.2.1
  · cases hfi : TradingAction.findMatchIdx
        (fun opt => decide (TradingAction.matchesClose ticker OptType.put
          strike expiration contracts opt)) p.options with
    | none => simp only [TradingAction.close_put, hfi]
    | some i =>
      obtain ⟨a, hget, hpa, _⟩ := findMatchIdx_spec _ p.options i hfi
      have hmc := of_decide_eq_true hpa
      simp only [TradingAction.close_put, hfi]
      exact closeAt_shorts_preserved p i contracts premium a hget hmc.2.2.1
  · intro hok
    cases hfi : TradingAction.findMatchIdx
        (fun opt => decide (TradingAction.matchesClose ticker OptType.call
          strike expiration contracts opt)) p.options with
    | none => rw [TradingAction.close_call, hfi] at hok; simp at hok
    | some i =>
      obtain ⟨a, hget, hpa, hfirst⟩ := findMatchIdx_spec _ p.options i hfi
      have hmc := of_decide_eq_true hpa
      refine ⟨i, a, hget, hmc.2.2.1, hmc, ?_, ?_⟩
      · intro j hj o ho
        exact of_decide_eq_false (hfirst j hj o ho)
      · simp only [TradingAction.close_call, hfi, TradingAction.closeAt, hget]
  · intro hok
    cases hfi : TradingAction.findMatchIdx
        (fun opt => decide (TradingAction.matchesClose ticker OptType.put
          strike expiration contracts opt)) p.options with
    | none => rw [TradingAction.close_put, hfi] at hok; simp at hok
    | some i =>
      obtain ⟨a, hget, hpa, hfirst⟩ := findMatchIdx_spec _ p.options i hfi
      have hmc := of_decide_eq_true hpa
      refine ⟨i, a, hget, hmc.2.2.1, hmc, ?_, ?_⟩
      · intro j hj o ho
        exact of_decide_eq_false (hfirst j hj o ho)
      · simp only [TradingAction.close_put, hfi, TradingAction.closeAt, hget]

/-- C10 witness: with a short call first in the list and two matching long
calls behind it, closing two contracts succeeds and the guarantees of the
claim hold at this input. -/
theorem close_only_first_matching_long_witness :
    ∃ i opt,
      (⟨0, [], [⟨"A", 50, 10, OptType.call, 3, 30, Side.short⟩,
          ⟨"A", 50, 10, OptType.call, 2, -40, Side.long⟩,
          ⟨"A", 50, 10, OptType.call, 5, -100, Side.long⟩]⟩ :
            Portfolio).options[i]? = some opt
        ∧ opt.position = Side.long
        ∧ TradingAction.matchesClose "A" OptType.call 50 10 2 opt
        ∧ (∀ j, j < i → ∀ o,
            (⟨0, [], [⟨"A", 50, 10, OptType.call, 3, 30, Side.short⟩,
                ⟨"A", 50, 10, OptType.call, 2, -40, Side.long⟩,
                ⟨"A", 50, 10, OptType.call, 5, -100, Side.long⟩]⟩ :
                  Portfolio).options[j]? = some o →
            ¬ TradingAction.matchesClose "A" OptType.call 50 10 2 o)
        ∧ (TradingAction.close_call ⟨some [], 0⟩
            ⟨0, [], [⟨"A", 50, 10, OptType.call, 3, 30, Side.short⟩,
                ⟨"A", 50, 10, OptType.call, 2, -40, Side.long⟩,
                ⟨"A", 50, 10, OptType.call, 5, -100, Side.long⟩]⟩
            "A" 50 10 2 1).portfolio.options
          = (if opt.contracts = 2 then
              ([⟨"A", 50, 10, OptType.call, 3, 30, Side.short⟩,
                ⟨"A", 50, 10, OptType.call, 2, -40, Side.long⟩,
                ⟨"A", 50, 10, OptType.call, 5, -100, Side.long⟩] :
                  List OptionContract).eraseIdx i
              else
              ([⟨"A", 50, 10, OptType.call, 3, 30, Side.short⟩,
                ⟨"A", 50, 10, OptType.call, 2, -40, Side.long⟩,
                ⟨"A", 50, 10, OptType.call, 5, -100, Side.long⟩] :
                  List OptionContract).set i
                { opt with contracts := opt.contracts - 2 }) :=
  (close_only_first_matching_long ⟨some [], 0⟩
      ⟨0, [], [⟨"A", 50, 10, OptType.call, 3, 30, Side.short⟩,
          ⟨"A", 50, 10, OptType.call, 2, -40, Side.long⟩,
          ⟨"A", 50, 10, OptType.call, 5, -100, Side.long⟩]⟩
      "A" 50 10 2 1).2.2.1
    (by
      norm_num [TradingAction.close_call, TradingAction.findMatchIdx,
        TradingAction.matchesClose]
      simp)

/-! ### C7: Sharpe ratio and annualized volatility -/

/-- C7 counterexample.  The claim says Sharpe and volatility are reported as
`0` whenever fewer than 2 valid return observations exist.  With the
two-day history `[100, 110]` there is exactly one valid return observation
(`0.1`), so `len(returns) > 0` selects the computed branch, and the pandas
sample standard deviation of a single observation is NaN: both the Sharpe
ratio and the annualized volatility come out NaN (`none`), not `0`. -/
theorem stats_single_return_nan_concrete :
    sharpeStat [100, 110] = none ∧ volatilityStat [100, 110] = none := by
  have hpc : pct_change [100, 110] = [110 / 100 - 1] := rfl
  have hvar : series_var [110 / 100 - 1] = none := by
    unfold series_var
    norm_num
  constructor
  · unfold sharpeStat
    rw [hpc]
    simp only [List.length_cons, List.length_nil, gt_iff_lt, Nat.zero_lt_one,
      if_true]
    unfold series_mean series_std
    rw [hvar]
    norm_num
  · unfold volatilityStat series_std
    rw [hpc, hvar]
    rfl

/-- C7 (amended): Sharpe and volatility are derived from day-over-day
percentage changes of total value with a `√252` annualization factor, but
the fewer-than-2-observations guard of the claim holds only partially: with
zero valid return observations the Sharpe ratio is reported as `0` while the
volatility is NaN, and with exactly one valid observation both are NaN (the
sample standard deviation of one observation), not `0`.  With at least two
observations and a non-zero standard deviation, Sharpe is
`mean/std × √252` and volatility is `std × √252 × 100`. -/
theorem stats_sharpe_volatility_spec (vs : List ℚ) (_hnz : ∀ v ∈ vs, v ≠ 0) :
    ((pct_change vs).length = 0 →
        sharpeStat vs = some 0 ∧ volatilityStat vs = none)
      ∧ ((pct_change vs).length = 1 →
        sharpeStat vs = none ∧ volatilityStat vs = none)
      ∧ (∀ (m : ℚ) (sd : ℝ), series_mean (pct_change vs) = some m →
          series_std (pct_change vs) = some sd → sd ≠ 0 →
          sharpeStat vs = some ((m : ℝ) / sd * Real.sqrt 252)
            ∧ volatilityStat vs = some (sd * Real.sqrt 252 * 100)) := by
  refine ⟨?_, ?_, ?_⟩
  · intro h0
    obtain hnil : pct_change vs = [] := List.length_eq_zero.mp h0
    constructor
    · unfold sharpeStat
      rw [hnil]
      simp
    · unfold volatilityStat series_std series_var
      rw [hnil]
      simp
  · intro h1
    obtain ⟨a, ha⟩ : ∃ a, pct_change vs = [a] := List.length_eq_one.mp h1
    have hvar : series_var [a] = none := by unfold series_var; norm_num
    constructor
    · unfold sharpeStat
      rw [ha]
      simp only [List.length_cons, List.length_nil, gt_iff_lt, Nat.zero_lt_one,
        if_true]
      unfold series_mean series_std
      rw [hvar]
      norm_num
    · unfold volatilityStat series_std
      rw [ha, hvar]
      rfl
  · intro m sd hm hsd hne
    have hlen : ¬ (pct_change vs).length < 2 := by
      intro hlt
      unfold series_std series_var at hsd
      rw [if_pos hlt] at hsd
      simp at hsd
    have hpos : (pct_change vs).length > 0 := by omega
    constructor
    · unfold sharpeStat
      rw [if_pos hpos]
      rw [hm, hsd]
      simp only [Option.bind_eq_bind, Option.some_bind]
      unfold numDiv
      rw [if_neg hne]
      rfl
    · unfold volatilityStat
      rw [hsd]
      rfl

/-- C7 witness: the history `[200, 220]` has exactly one valid return
observation, so both statistics are NaN at this input. -/
theorem stats_sharpe_volatility_spec_witness :
    sharpeStat [200, 220] = none ∧ volatilityStat [200, 220] = none :=
  (stats_sharpe_volatility_spec [200, 220] (by norm_num)).2.1 (by norm_num [pct_change])

/-! ### C1: forced exercise and the executor's checks -/

/-- Invariant of a reachable portfolio state: non-negative cash,
non-negative share counts, and (the dict invariant) pairwise-distinct
position tickers. -/
def PortfolioInv (p : Portfolio) : Prop :=
  0 ≤ p.cash ∧ (∀ q ∈ p.positions, 0 ≤ q.shares)
    ∧ (p.positions.map Position.ticker).Nodup

/-- Helper: `buy_stock` with a non-negative share count preserves the
portfolio invariant. -/
theorem buy_stock_inv (ctx : TAContext) (p : Portfolio) (t : String)
    (sh pr : ℚ) (hsh : 0 ≤ sh) (hinv : PortfolioInv p) :
    PortfolioInv (TradingAction.buy_stock ctx p t sh pr).portfolio := by
  obtain ⟨hc, hq, hnd⟩ := hinv
  by_cases hcond : sh * pr > p.cash
  · simp only [TradingAction.buy_stock, if_pos hcond]
    exact ⟨hc, hq, hnd⟩
  · simp only [TradingAction.buy_stock, if_neg hcond]
    refine ⟨?_, ?_, ?_⟩
    · show 0 ≤ p.cash - sh * pr
      linarith [not_lt.mp hcond]
    · by_cases hf : (p.findPos t).isSome
      · rw [if_pos hf]
        intro q hqm
        obtain ⟨q', hq'm, rfl⟩ := List.mem_map.mp hqm
        by_cases hqt : (q'.ticker == t)
        · rw [if_pos hqt]
          have := hq q' hq'm
          show 0 ≤ q'.shares + sh
          linarith
        · rw [if_neg hqt]
          exact hq q' hq'm
      · rw [if_neg hf]
        intro q hqm
        rcases List.mem_append.mp hqm with hin | hnew
        · exact hq q hin
        · rw [List.mem_singleton.mp hnew]
          exact hsh
    · by_cases hf : (p.findPos t).isSome
      · rw [if_pos hf]
        have htick : (p.positions.map (fun pos =>
            if (pos.ticker == t) = true then
              { pos with
                avg_cost := (pos.avg_cost * pos.shares + sh * pr) / (pos.shares + sh),
                shares := pos.shares + sh }
            else pos)).map Position.ticker
            = p.positions.map Position.ticker := by
          rw [List.map_map]
          refine List.map_congr_left ?_
          intro q _
          by_cases hqt : (q.ticker == t) = true <;>
            simp [Function.comp, hqt]
        rw [htick]
        exact hnd
      · rw [if_neg hf]
        have hnone : p.findPos t = none := Option.not_isSome_iff_eq_none.mp hf
        have hnotmem : ∀ q ∈ p.positions, q.ticker ≠ t := by
          intro q hqm
          have := List.find?_eq_none.mp hnone q hqm
          simpa using this
        rw [List.map_append]
        refine List.Nodup.append hnd (by simp) ?_
        intro x hx hx'
        obtain ⟨q, hqm, rfl⟩ := List.mem_map.mp hx
        simp only [List.map_cons, List.map_nil, List.mem_singleton] at hx'
        exact hnotmem q hqm hx'

/-- Helper: `sell_stock` with a non-negative total preserves the portfolio
invariant. -/
theorem sell_stock_inv (ctx : TAContext) (p : Portfolio) (t : String)
    (sh pr : ℚ) (hpr : 0 ≤ sh * pr) (hinv : PortfolioInv p) :
    PortfolioInv (TradingAction.sell_stock ctx p t sh pr).portfolio := by
  obtain ⟨hc, hq, hnd⟩ := hinv
  cases hfp : p.findPos t with
  | none =>
    simp only [TradingAction.sell_stock, hfp]
    exact ⟨hc, hq, hnd⟩
  | some pos =>
    have hposmem : pos ∈ p.positions := List.mem_of_find?_eq_some hfp
    have hpost : pos.ticker = t := by
      simpa using List.find?_some hfp
    by_cases hlt : pos.shares < sh
    · simp only [TradingAction.sell_stock, hfp, if_pos hlt]
      exact ⟨hc, hq, hnd⟩
    · simp only [TradingAction.sell_stock, hfp, if_neg hlt]
      refine ⟨?_, ?_, ?_⟩
      · show 0 ≤ p.cash + sh * pr
        linarith
      · by_cases hz : pos.shares - sh = 0
        · rw [if_pos hz]
          intro q hqm
          exact hq q (List.mem_of_mem_filter hqm)
        · rw [if_neg hz]
          intro q hqm
          obtain ⟨q', hq'm, rfl⟩ := List.mem_map.mp hqm
          by_cases hqt : (q'.ticker == t)
          · rw [if_pos hqt]
            have hq'pos : q' = pos :=
              List.inj_on_of_nodup_map hnd hq'm hposmem
                (by rw [hpost]; simpa using hqt)
            show 0 ≤ q'.shares - sh
            rw [hq'pos]
            linarith [not_lt.mp hlt]
          · rw [if_neg hqt]
            exact hq q' hq'm
      · by_cases hz : pos.shares - sh = 0
        · rw [if_pos hz]
          exact List.Nodup.sublist
            (List.Sublist.map Position.ticker (List.filter_sublist _)) hnd
        · rw [if_neg hz]
          have htick : (p.positions.map (fun q =>
              if (q.ticker == t) = true then { q with shares := q.shares - sh }
              else q)).map Position.ticker
              = p.positions.map Position.ticker := by
            rw [List.map_map]
            refine List.map_congr_left ?_
            intro q _
            by_cases hqt : (q.ticker == t) = true <;>
              simp [Function.comp, hqt]
          rw [htick]
          exact hnd

/-- Helper: one step of the expiration loop preserves the portfolio
invariant, given the data-model bounds on the contract (positive strike and
contract count, here weakened to non-negative). -/
theorem exerciseStep_inv (current_date : Int) (prices : List (String × ℚ))
    (st : Portfolio × List Txn) (opt : OptionContract)
    (hs : 0 ≤ opt.strike) (hcc : 0 ≤ opt.contracts)
    (hinv : PortfolioInv st.1) :
    PortfolioInv (exerciseStep current_date prices st opt).1 := by
  have hc100 : (0 : ℚ) ≤ (opt.contracts : ℚ) * 100 := by
    have : (0 : ℚ) ≤ (opt.contracts : ℚ) := by exact_mod_cast hcc
    linarith
  by_cases h1 : current_date ≥ opt.expiration_date
  · by_cases h2 : opt.option_type = OptType.call ∧ opt.position = Side.short
    · by_cases h3 : priceGet prices opt.ticker ≥ opt.strike
      · simp only [exerciseStep, if_pos h1, if_pos h2, if_pos h3]
        exact sell_stock_inv _ _ _ _ _ (mul_nonneg hc100 hs) hinv
      · simp only [exerciseStep, if_pos h1, if_pos h2, if_neg h3]
        exact hinv
    · by_cases h4 : opt.option_type = OptType.put ∧ opt.position = Side.short
      · by_cases h5 : priceGet prices opt.ticker ≤ opt.strike
        · simp only [exerciseStep, if_pos h1, if_neg h2, if_pos h4, if_pos h5]
          exact buy_stock_inv _ _ _ _ _ hc100 hinv
        · simp only [exerciseStep, if_pos h1, if_neg h2, if_pos h4, if_neg h5]
          exact hinv
      · simp only [exerciseStep, if_pos h1, if_neg h2, if_neg h4]
        exact hinv
  · simp only [exerciseStep, if_neg h1]
    exact hinv

/-- Helper: the whole expiration loop preserves the portfolio invariant. -/
theorem foldl_exerciseStep_inv (current_date : Int)
    (prices : List (String × ℚ)) :
    ∀ (opts : List OptionContract) (st : Portfolio × List Txn),
      (∀ o ∈ opts, 0 ≤ o.strike ∧ 0 ≤ o.contracts) → PortfolioInv st.1 →
      PortfolioInv ((opts.foldl (exerciseStep current_date prices) st)).1 := by
  intro opts
  induction opts with
  | nil => intro st _ hinv; exact hinv
  | cons o os ih =>
    intro st hb hinv
    simp only [List.foldl_cons]
    exact ih _ (fun o' ho' => hb o' (List.mem_cons_of_mem o ho'))
      (exerciseStep_inv current_date prices st o
        (hb o (List.mem_cons_self o os)).1 (hb o (List.mem_cons_self o os)).2
        hinv)

/-- C1 counterexample.  The claim says that for an expired in-the-money
short call the Engine force-sells `contracts×100` shares at the strike even
when the shares are not held, bypassing the Executor's position check and
producing a negative share position.  Concrete input: a portfolio with no
cash and no shares, one short call (strike 100, 1 contract) expiring today,
current price 120.  Under the claim the portfolio would end with −100 shares
of `"A"` and cash 10000; the code instead calls the ordinary `sell_stock`,
whose position check rejects the sale (its boolean result is discarded), so
cash and positions are unchanged, the contract is removed, and only the
`CALL_EXERCISED` record is appended — no `SELL_STOCK` record and no
negative position. -/
theorem expiration_forced_sale_rejected_concrete :
    handle_option_expirations 0 [("A", 120)]
        ⟨0, [], [⟨"A", 100, 0, OptType.call, 1, 500, Side.short⟩]⟩ []
      = (⟨0, [], []⟩, [Txn.callExercised 0 "A" 1 100 120 100]) := by
  norm_num [handle_option_expirations, exerciseStep, priceGet,
    TradingAction.sell_stock, Portfolio.findPos]

/-- C1 (amended): expiration handling does not bypass the Executor's
checks: the forced sale (resp. purchase) goes through the ordinary
`sell_stock` (resp. `buy_stock`), whose insufficient-position
(resp. insufficient-cash) check still applies and whose boolean result the
Engine discards, so expiration handling can never produce a negative share
position or negative cash: starting from non-negative cash and share counts
(with distinct position tickers, and the data model's non-negative strikes
and contract counts), both remain non-negative. -/
theorem expiration_handling_preserves_nonneg (current_date : Int)
    (prices : List (String × ℚ)) (p : Portfolio) (txns : List Txn)
    (hc : 0 ≤ p.cash) (hsh : ∀ q ∈ p.positions, 0 ≤ q.shares)
    (hnd : (p.positions.map Position.ticker).Nodup)
    (hopts : ∀ o ∈ p.options, 0 ≤ o.strike ∧ 0 ≤ o.contracts) :
    0 ≤ (handle_option_expirations current_date prices p txns).1.cash
      ∧ ∀ q ∈ (handle_option_expirations current_date prices p txns).1.positions,
          0 ≤ q.shares := by
  have h := foldl_exerciseStep_inv current_date prices p.options (p, txns)
    hopts ⟨hc, hsh, hnd⟩
  exact ⟨h.1, h.2.1⟩

/-- C1 witness: an in-the-money short call expiring today against a holder
of 100 shares; the invariant holds at this concrete input. -/
theorem expiration_handling_preserves_nonneg_witness :
    0 ≤ (handle_option_expirations 0 [("A", 120)]
        ⟨50, [⟨"A", 100, 90⟩], [⟨"A", 100, 0, OptType.call, 1, 500, Side.short⟩]⟩
        []).1.cash
      ∧ ∀ q ∈ (handle_option_expirations 0 [("A", 120)]
          ⟨50, [⟨"A", 100, 90⟩], [⟨"A", 100, 0, OptType.call, 1, 500, Side.short⟩]⟩
          []).1.positions, 0 ≤ q.shares :=
  expiration_handling_preserves_nonneg 0 [("A", 120)]
    ⟨50, [⟨"A", 100, 90⟩], [⟨"A", 100, 0, OptType.call, 1, 500, Side.short⟩]⟩ []
    (by norm_num)
    (by
      intro q hq
      simp only [List.mem_singleton] at hq
      subst hq
      norm_num)
    (by simp)
    (by
      intro o ho
      simp only [List.mem_singleton] at ho
      subst ho
      exact ⟨by norm_num, by norm_num⟩)

/-! ### C8: put–call parity -/

/-- Helper: the standard normal CDF satisfies `Φ(x) + Φ(-x) = 1`. -/
theorem norm_cdf_add_neg (x : ℝ) : norm_cdf x + norm_cdf (-x) = 1 := by
  have hb : (0 : ℝ) < 1 / 2 := by norm_num
  have hint := integrable_exp_neg_mul_sq hb
  have hB : (∫ t in Set.Iic (-x), Real.exp (-(1 / 2) * t ^ 2))
      = ∫ t in Set.Ioi x, Real.exp (-(1 / 2) * t ^ 2) := by
    have h := integral_comp_neg_Iic (-x) (fun t => Real.exp (-(1 / 2) * t ^ 2))
    simpa [neg_sq] using h
  have hsplit : (∫ t in Set.Iic x, Real.exp (-(1 / 2) * t ^ 2))
        + (∫ t in Set.Ioi x, Real.exp (-(1 / 2) * t ^ 2))
      = ∫ t : ℝ, Real.exp (-(1 / 2) * t ^ 2) :=
    intervalIntegral.integral_Iic_add_Ioi hint.integrableOn hint.integrableOn
  have hgauss : (∫ t : ℝ, Real.exp (-(1 / 2) * t ^ 2))
      = Real.sqrt (2 * Real.pi) := by
    rw [integral_gaussian]
    congr 1
    ring
  unfold norm_cdf
  rw [hB, ← mul_add, hsplit, hgauss]
  exact inv_mul_cancel₀ (Real.sqrt_ne_zero'.mpr (by positivity))

/-- C8: for strictly positive spot, strike, volatility and time and any
rate, `black_scholes_call − black_scholes_put = S − K·exp(−r·t)` holds as
an identity of the exact-real reading of the source formulas. -/
theorem put_call_parity (S K σ r t : ℝ) (_hS : 0 < S) (_hK : 0 < K)
    (_hσ : 0 < σ) (_ht : 0 < t) :
    black_scholes_call S K σ r t - black_scholes_put S K σ r t
      = S - K * Real.exp (-r * t) := by
  have h1 := norm_cdf_add_neg (bs_d1 S K σ r t)
  have h2 := norm_cdf_add_neg (bs_d2 S K σ r t)
  unfold black_scholes_call black_scholes_put
  linear_combination S * h1 - K * Real.exp (-r * t) * h2

/-- C8 witness: parity at `S = K = σ = t = 1`, `r = 0`. -/
theorem put_call_parity_witness :
    black_scholes_call 1 1 1 0 1 - black_scholes_put 1 1 1 0 1
      = 1 - 1 * Real.exp (-0 * 1) :=
  put_call_parity 1 1 1 0 1 (by norm_num) (by norm_num) (by norm_num)
    (by norm_num)
